import Mathlib

/-!
Shallow embedding of `src/reciever.py`: an I2C character-LCD driver
(4-bit nibble protocol over a PCF8574 expander) plus a GPIO button/LED
reflector callback.

Side effects on the I2C bus are modelled as a trace of events: `Ev.write b`
stands for `bus.write_byte(I2C_ADDR, b)` and `Ev.sleep t` stands for
`time.sleep(t)` with `t` in seconds as an exact rational.  Each Python
function that touches the bus becomes a Lean function returning the trace
it emits.  The process-global `LCD_BACKLIGHT` variable is threaded as an
explicit `backlight` argument.  Strings are lists of character codes
(Python `ord`).  All integers in the program are nonnegative, so Python
ints are embedded as `Nat`; Python's `bits & ~ENABLE` on a nonnegative
int clears the `ENABLE` bits and keeps all others, which is exactly
`Nat.ldiff bits ENABLE`.
-/

/-- `I2C_ADDR = 0x27`, the fixed expander address. -/
def I2C_ADDR : Nat := 0x27

/-- `LCD_WIDTH = 16`, characters per line. -/
def LCD_WIDTH : Nat := 16

/-- `LCD_CHR = 1`, data (character) mode. -/
def LCD_CHR : Nat := 1

/-- `LCD_CMD = 0`, command mode. -/
def LCD_CMD : Nat := 0

/-- `LCD_LINE_1 = 0x80`, cursor-home address of line 1. -/
def LCD_LINE_1 : Nat := 0x80

/-- `LCD_LINE_2 = 0xC0`, cursor-home address of line 2. -/
def LCD_LINE_2 : Nat := 0xC0

/-- Initial value of the global `LCD_BACKLIGHT` (backlight off). -/
def LCD_BACKLIGHT : Nat := 0x00

/-- `ENABLE = 0b00000100`, the enable (latch) bit. -/
def ENABLE : Nat := 0b00000100

/-- `E_PULSE = 0.0005` seconds, enable pulse duration. -/
def E_PULSE : ℚ := 0.0005

/-- `E_DELAY = 0.0005` seconds, delay between operations. -/
def E_DELAY : ℚ := 0.0005

/-- One observable side effect: a bus byte write or a sleep. -/
inductive Ev where
  | write (b : Nat)
  | sleep (t : ℚ)
deriving DecidableEq, Repr

/-- `lcd_toggle_enable(bits)`: sleep, write with enable bit set, sleep,
write with enable bit cleared, sleep. -/
def lcd_toggle_enable (bits : Nat) : List Ev :=
  [Ev.sleep E_DELAY,
   Ev.write (bits ||| ENABLE),
   Ev.sleep E_PULSE,
   Ev.write (Nat.ldiff bits ENABLE),
   Ev.sleep E_DELAY]

/-- `lcd_byte(bits, mode)`: split into nibbles, write the upper-nibble
byte and latch it, then the lower-nibble byte and latch it.  `backlight`
is the global `LCD_BACKLIGHT` at call time. -/
def lcd_byte (bits mode backlight : Nat) : List Ev :=
  let bits_high := mode ||| (bits &&& 0xF0) ||| backlight
  let bits_low := mode ||| ((bits <<< 4) &&& 0xF0) ||| backlight
  [Ev.write bits_high] ++ lcd_toggle_enable bits_high
    ++ [Ev.write bits_low] ++ lcd_toggle_enable bits_low

/-- `lcd_init()`: the six fixed command transfers, then a settle delay. -/
def lcd_init (backlight : Nat) : List Ev :=
  lcd_byte 0b00110011 LCD_CMD backlight
    ++ lcd_byte 0b00110010 LCD_CMD backlight
    ++ lcd_byte 0b00000110 LCD_CMD backlight
    ++ lcd_byte 0b00001100 LCD_CMD backlight
    ++ lcd_byte 0b00101000 LCD_CMD backlight
    ++ lcd_byte 0b00000001 LCD_CMD backlight
    ++ [Ev.sleep E_DELAY]

/-- `lcd_string(message, line)`: pad the message with spaces to
`LCD_WIDTH` (Python `str.ljust`; a longer message is left unchanged,
which the `Nat` subtraction reproduces), send the line address as a
command, then send `message[i]` for `i in range(LCD_WIDTH)` as data.
The index is always in range after padding, so `getD`'s default is
never consulted. -/
def lcd_string (message : List Nat) (line backlight : Nat) : List Ev :=
  let message := message ++ List.replicate (LCD_WIDTH - message.length) 32
  lcd_byte line LCD_CMD backlight
    ++ (List.range LCD_WIDTH).flatMap
        (fun i => lcd_byte (message.getD i 32) LCD_CHR backlight)

/-- The padded message of `marquee_smooth`: `message.ljust(LCD_WIDTH)`
applied only when the message is shorter than the display. -/
def marquee_message (message : List Nat) : List Nat :=
  if message.length < LCD_WIDTH then
    message ++ List.replicate (LCD_WIDTH - message.length) 32
  else message

/-- The backing buffer `scroll_text = message + " " * LCD_WIDTH` of
`marquee_smooth`, built from the padded message. -/
def scroll_text (message : List Nat) : List Nat :=
  marquee_message message ++ List.replicate LCD_WIDTH 32

/-- The window built by the inner loop of `marquee_smooth`:
`LCD_WIDTH` characters read at `(pos + i) % len(scroll_text)`.
Indices are reduced mod the length, so `getD`'s default is never
consulted. -/
def marquee_window (st : List Nat) (pos : Nat) : List Nat :=
  (List.range LCD_WIDTH).map (fun i => st.getD ((pos + i) % st.length) 32)

/-- `marquee_smooth(message, line, delay, cycles)`: for each cycle and
each position `pos in range(len(padded) + LCD_WIDTH)`, render the
wraparound window via `lcd_string` and sleep `delay`. -/
def marquee_smooth (message : List Nat) (line : Nat) (delay : ℚ)
    (cycles backlight : Nat) : List Ev :=
  let length := (marquee_message message).length + LCD_WIDTH
  (List.range cycles).flatMap (fun _ =>
    (List.range length).flatMap (fun pos =>
      lcd_string (marquee_window (scroll_text message) pos) line backlight
        ++ [Ev.sleep delay]))

/-- `GPIO.LOW`. -/
def GPIO_LOW : Nat := 0

/-- `GPIO.HIGH`. -/
def GPIO_HIGH : Nat := 1

/-- `buttonPressed(pin)`: sample pin 20; if it reads `GPIO.LOW`, write
`GPIO.HIGH` to pin 16, else write `GPIO.LOW` to pin 16.  `input` models
`GPIO.input` at the moment of the call; the result is the single
`(pin, level)` pair passed to `GPIO.output`. -/
def buttonPressed (pin : Nat) (input : Nat → Nat) : Nat × Nat :=
  if input 20 = GPIO_LOW then (16, GPIO_HIGH) else (16, GPIO_LOW)

/-- The bus bytes of a trace, in order (the `bus.write_byte` payloads,
sleeps erased). -/
def writes (t : List Ev) : List Nat :=
  t.filterMap (fun e => match e with
    | Ev.write b => some b
    | Ev.sleep _ => none)

/-! ### Helper lemmas -/

/-- Bit `i` of the mask `0xF0` is set exactly for `4 ≤ i < 8`. -/
theorem testBit_240 (i : Nat) :
    (240 : Nat).testBit i = (decide (4 ≤ i) && decide (i < 8)) := by
  rcases Nat.lt_or_ge i 8 with h | h
  · interval_cases i <;> decide
  · have hlt : (240 : Nat) < 2 ^ i :=
      lt_of_lt_of_le (by norm_num) (Nat.pow_le_pow_right (by norm_num) h)
    simp [Nat.testBit_lt_two_pow hlt]
    omega

/-- Reading the first `n` positions of a list through `getD` is `take n`
when `n` is within the length. -/
theorem range_map_getD {α : Type} (l : List α) (n : Nat) (d : α)
    (h : n ≤ l.length) :
    (List.range n).map (fun i => l.getD i d) = l.take n := by
  apply List.ext_getElem
  · simp [Nat.min_eq_left h]
  · intro k h1 h2
    have hk : k < n := by simpa using h1
    have hkl : k < l.length := lt_of_lt_of_le hk h
    simp only [List.getElem_map, List.getElem_range, List.getElem_take]
    exact List.getD_eq_getElem l d hkl

/-- The `&` mask `0xF0` only sees the low 8 bits of its argument. -/
theorem land240_mod (b : Nat) : b &&& 0xF0 = (b % 256) &&& 0xF0 := by
  apply Nat.eq_of_testBit_eq
  intro i
  have h256 : (256 : Nat) = 2 ^ 8 := by norm_num
  by_cases h : i < 8
  · have hd : decide (i < 8) = true := by simp [h]
    simp only [Nat.testBit_land, h256, Nat.testBit_mod_two_pow, hd,
      Bool.true_and]
  · simp [Nat.testBit_land, testBit_240, h]

/-- The shifted-and-masked lower nibble only sees the low 8 bits. -/
theorem shiftl_land240_mod (b : Nat) :
    (b <<< 4) &&& 0xF0 = ((b % 256) <<< 4) &&& 0xF0 := by
  apply Nat.eq_of_testBit_eq
  intro i
  have h256 : (256 : Nat) = 2 ^ 8 := by norm_num
  by_cases h : i < 8
  · have hd : decide (i - 4 < 8) = true := by
      have : i - 4 < 8 := by omega
      simp [this]
    simp only [Nat.testBit_land, Nat.testBit_shiftLeft, h256,
      Nat.testBit_mod_two_pow, hd, Bool.true_and]
  · simp [Nat.testBit_land, testBit_240, h]

/-- The padded marquee message has length `max message.length LCD_WIDTH`. -/
theorem marquee_message_length (message : List Nat) :
    (marquee_message message).length = max message.length LCD_WIDTH := by
  unfold marquee_message
  split <;> simp <;> omega

/-! ### Claim theorems -/

/-- C1: `lcd_init` emits exactly the six command-mode transfers
`0x33, 0x32, 0x06, 0x0C, 0x28, 0x01` in that fixed order, each through
`lcd_byte` (the two-nibble protocol), followed only by the final settle
delay. -/
theorem lcd_init_six_commands (backlight : Nat) :
    lcd_init backlight =
      ([0x33, 0x32, 0x06, 0x0C, 0x28, 0x01].flatMap
        (fun b => lcd_byte b LCD_CMD backlight)) ++ [Ev.sleep E_DELAY] := rfl

/-- C4: `lcd_byte` puts on the bus first the upper-nibble byte (mode,
bits 4-7 of the argument, backlight) with its latch pair, then the
lower-nibble byte (mode, bits 0-3 shifted up, backlight) with its latch
pair — upper strictly before lower, never reordered. -/
theorem lcd_byte_upper_then_lower (bits mode backlight : Nat) :
    writes (lcd_byte bits mode backlight) =
      [mode ||| (bits &&& 0xF0) ||| backlight,
       (mode ||| (bits &&& 0xF0) ||| backlight) ||| ENABLE,
       Nat.ldiff (mode ||| (bits &&& 0xF0) ||| backlight) ENABLE,
       mode ||| ((bits <<< 4) &&& 0xF0) ||| backlight,
       (mode ||| ((bits <<< 4) &&& 0xF0) ||| backlight) ||| ENABLE,
       Nat.ldiff (mode ||| ((bits <<< 4) &&& 0xF0) ||| backlight) ENABLE]
    := rfl

/-- C5 counterexample: at `bits = 0x33`, command mode, backlight off,
one `lcd_byte` call performs a number of bus writes different from the
claimed four. -/
theorem lcd_byte_not_four_writes :
    (writes (lcd_byte 0x33 LCD_CMD LCD_BACKLIGHT)).length ≠ 4 := by decide

/-- C5 amended: one logical `lcd_byte` causes exactly six physical bus
write transactions (two nibble-data writes plus two writes per latch
pulse, for two latch pulses). -/
theorem lcd_byte_six_writes (bits mode backlight : Nat) :
    (writes (lcd_byte bits mode backlight)).length = 6 := rfl

/-- C9: the bus traffic of `lcd_byte` depends only on the low 8 bits of
its `bits` argument: `lcd_byte bits` equals `lcd_byte (bits % 256)`
whole-trace, for every mode and backlight value. -/
theorem lcd_byte_mod256 (bits mode backlight : Nat) :
    lcd_byte bits mode backlight = lcd_byte (bits % 256) mode backlight := by
  simp only [lcd_byte, ← land240_mod, ← shiftl_land240_mod]

/-- C8: on each invocation the reflector callback writes pin 16 HIGH
when pin 20 samples LOW, and pin 16 LOW when pin 20 samples HIGH; the
result is a function of the current sample alone (the embedding carries
no state between calls). -/
theorem buttonPressed_reflects (pin : Nat) (input : Nat → Nat) :
    (input 20 = GPIO_LOW → buttonPressed pin input = (16, GPIO_HIGH))
    ∧ (input 20 = GPIO_HIGH → buttonPressed pin input = (16, GPIO_LOW)) := by
  constructor
  · intro h
    simp [buttonPressed, h]
  · intro h
    have : ¬ input 20 = GPIO_LOW := by
      rw [h]; decide
    simp [buttonPressed, this]

/-- C8 witness: with pin 20 sampling LOW, the callback writes
`(16, HIGH)`. -/
theorem buttonPressed_reflects_witness :
    ((fun _ => GPIO_LOW) : Nat → Nat) 20 = GPIO_LOW
    ∧ buttonPressed 20 (fun _ => GPIO_LOW) = (16, GPIO_HIGH) :=
  ⟨rfl, (buttonPressed_reflects 20 (fun _ => GPIO_LOW)).1 rfl⟩

/-- C10: the callback ignores its `pin` parameter entirely — its result
is the same for any two pin arguments, given the same sampled levels. -/
theorem buttonPressed_ignores_pin (p1 p2 : Nat) (input : Nat → Nat) :
    buttonPressed p1 input = buttonPressed p2 input := rfl

/-- C6: `lcd_toggle_enable` performs exactly: settle delay, write with
the enable bit set, pulse-width delay, write with the enable bit
cleared, settle delay; the two written bytes differ from the input only
in bit 2 (the enable bit), and both delays are at least 0.5 ms
(1/2000 s). -/
theorem lcd_toggle_enable_latch (bits : Nat) :
    lcd_toggle_enable bits =
      [Ev.sleep E_DELAY, Ev.write (bits ||| ENABLE), Ev.sleep E_PULSE,
       Ev.write (Nat.ldiff bits ENABLE), Ev.sleep E_DELAY]
    ∧ (bits ||| ENABLE).testBit 2 = true
    ∧ (Nat.ldiff bits ENABLE).testBit 2 = false
    ∧ (∀ i, i ≠ 2 →
        (bits ||| ENABLE).testBit i = bits.testBit i
        ∧ (Nat.ldiff bits ENABLE).testBit i = bits.testBit i)
    ∧ 1/2000 ≤ E_DELAY ∧ 1/2000 ≤ E_PULSE := by
  have h4 : ∀ i, (ENABLE : Nat).testBit i = decide (2 = i) := by
    intro i
    have : (ENABLE : Nat) = 2 ^ 2 := by norm_num [ENABLE]
    rw [this, Nat.testBit_two_pow]
  refine ⟨rfl, ?_, ?_, ?_, ?_, ?_⟩
  · simp [Nat.testBit_lor, h4]
  · simp [Nat.testBit_ldiff, h4]
  · intro i hi
    have : (2 = i) = False := by simp [Ne.symm hi]
    constructor
    · simp [Nat.testBit_lor, h4, this]
    · simp [Nat.testBit_ldiff, h4, this]
  · norm_num [E_DELAY]
  · norm_num [E_PULSE]

/-- C6 witness: at `bits = 0xF0` and bit index 5 (≠ 2), the
enable-high byte agrees with `bits` on that bit. -/
theorem lcd_toggle_enable_latch_witness :
    (5 ≠ 2) ∧ ((0xF0 ||| ENABLE : Nat).testBit 5 = (0xF0 : Nat).testBit 5) :=
  ⟨by decide, ((lcd_toggle_enable_latch 0xF0).2.2.2.1 5 (by decide)).1⟩

/-- C2: for every content string, `lcd_string` emits the line-address
command followed by exactly `LCD_WIDTH` character-mode transfers whose
codes are the first `LCD_WIDTH` characters of the content extended by
spaces — i.e. the first `min len LCD_WIDTH` transfers carry the content
in order and the rest carry the space code when the content is short,
and the transfers carry exactly the first `LCD_WIDTH` characters when it
is long (truncation, no wraparound). -/
theorem lcd_string_renders_width (content : List Nat) (line backlight : Nat) :
    lcd_string content line backlight =
      lcd_byte line LCD_CMD backlight
        ++ (content.take LCD_WIDTH
            ++ List.replicate (LCD_WIDTH - content.length) 32).flatMap
            (fun c => lcd_byte c LCD_CHR backlight)
    ∧ (content.take LCD_WIDTH
        ++ List.replicate (LCD_WIDTH - content.length) 32).length
      = LCD_WIDTH := by
  constructor
  · have hp : LCD_WIDTH ≤
        (content ++ List.replicate (LCD_WIDTH - content.length) 32).length := by
      simp
      omega
    have hkey : (content ++ List.replicate (LCD_WIDTH - content.length) 32).take
        LCD_WIDTH
        = content.take LCD_WIDTH
          ++ List.replicate (LCD_WIDTH - content.length) 32 := by
      rw [List.take_append_eq_append_take, List.take_replicate, Nat.min_self]
    simp only [lcd_string]
    congr 1
    conv_rhs => rw [← hkey, ← range_map_getD _ LCD_WIDTH (32 : Nat) hp,
      List.flatMap_map]
  · simp
    omega

/-- C3: `marquee_smooth` renders exactly
`cycles * (max message.length LCD_WIDTH + LCD_WIDTH)` frames, each one a
`lcd_string` render followed by the inter-frame sleep, and nothing else:
the whole trace is that flat sequence of frames, with no early exit. -/
theorem marquee_smooth_frame_count (message : List Nat) (line : Nat)
    (delay : ℚ) (cycles backlight : Nat) :
    ∃ frames : List (List Nat),
      marquee_smooth message line delay cycles backlight
        = frames.flatMap
            (fun w => lcd_string w line backlight ++ [Ev.sleep delay])
      ∧ frames.length = cycles * (max message.length LCD_WIDTH + LCD_WIDTH) := by
  refine ⟨(List.range cycles).flatMap (fun _ =>
    (List.range ((marquee_message message).length + LCD_WIDTH)).map
      (marquee_window (scroll_text message))), ?_, ?_⟩
  · simp only [marquee_smooth, List.flatMap_assoc, List.flatMap_map]
  · simp [List.length_flatMap, Function.comp_def, List.map_const',
      List.sum_replicate, marquee_message_length]

/-- C7: for a message shorter than the display, the scroll buffer has
length `2 * LCD_WIDTH`, the window at position 0 is exactly the padded
message, and the window one full buffer length later equals the window
at position 0 again. -/
theorem marquee_smooth_wraparound (message : List Nat)
    (h : message.length < LCD_WIDTH) :
    (scroll_text message).length = 2 * LCD_WIDTH
    ∧ marquee_window (scroll_text message) 0 = marquee_message message
    ∧ marquee_window (scroll_text message) (2 * LCD_WIDTH)
        = marquee_window (scroll_text message) 0 := by
  have hpad : (marquee_message message).length = LCD_WIDTH := by
    rw [marquee_message_length]
    omega
  have hst : (scroll_text message).length = 2 * LCD_WIDTH := by
    simp [scroll_text, hpad]
    omega
  refine ⟨hst, ?_, ?_⟩
  · unfold marquee_window
    have hmod : ∀ i ∈ List.range LCD_WIDTH,
        (scroll_text message).getD ((0 + i) % (scroll_text message).length) 32
          = (scroll_text message).getD i 32 := by
      intro i hi
      have : i < LCD_WIDTH := List.mem_range.mp hi
      rw [Nat.zero_add,
        Nat.mod_eq_of_lt (by omega : i < (scroll_text message).length)]
    rw [List.map_congr_left hmod,
      range_map_getD _ _ _
        (by omega : LCD_WIDTH ≤ (scroll_text message).length)]
    unfold scroll_text
    rw [List.take_append_eq_append_take, ← hpad, List.take_length]
    simp
  · unfold marquee_window
    apply List.map_congr_left
    intro i hi
    rw [hst, Nat.add_mod_left, Nat.zero_add]

/-- C7 witness: for the two-character message "AB", the position-0
window is the padded message. -/
theorem marquee_smooth_wraparound_witness :
    ([65, 66] : List Nat).length < LCD_WIDTH
    ∧ marquee_window (scroll_text [65, 66]) 0 = marquee_message [65, 66] :=
  ⟨by decide, (marquee_smooth_wraparound [65, 66] (by decide)).2.1⟩
